import Mathlib

/-! Bohr transition energy calculator.

A shallow embedding of `Jindong_Wang_assignment1.cpp` and the properties of it
that the specification states.

Conventions of the embedding

* A C++ `int` is an `Int`; every `int` the program handles comes out of
  `cin >> int`, which only delivers values in `[INT_MIN, INT_MAX]`.
* A C++ `double` is read over exact rational arithmetic: it is an `Option ℚ`,
  where `none` stands for a value that is not a finite number (the result of a
  division by zero and everything computed from it).
* A C++ `char` is a `Char`; standard input is the `List Char` not yet read.
* Standard output is a list of `Out` events, one per `<<` operand.
-/

namespace Bohr

/-! ## Constants -/

/-- The constant `EV_TO_J`: one electron-volt in Joules, as an exact decimal. -/
def EV_TO_J : ℚ := 1.602176634e-19

/-- Largest value of a 32-bit `int`. -/
def INT_MAX : Int := 2147483647

/-- Smallest value of a 32-bit `int`. -/
def INT_MIN : Int := -2147483648

/-! ## Output events -/

/-- One operand written to `cout`: a string literal, a `double`, or `endl`. -/
inductive Out where
  | str (s : String)
  | num (x : Option ℚ)
  | endl
  deriving DecidableEq, Repr

def titleMsg : String := "Bohr transition energy calculator"

def promptMsg : String :=
  "Enter Z ni nj Units (J for Joules, E for eV), e.g. '1 2 1 J': "

def formatMsg : String :=
  "Invalid input format. Please enter: integer integer integer char"

def atomicNumberMsg : String := "Error: Z must be a positive integer."

def quantumNumberMsg : String := "Error: ni and nj must be positive integers."

def orderingMsg : String := "Error: require ni > nj for this transition."

def unitMsg : String := "Error: Units must be J/j (Joules) or E/e (electron-volts)."

def resultMsg : String := "Energy of transition: "

def repeatMsg : String := "Calculate another? (y/n): "

/-! ## The standard input stream

The semantics of the formatted extractors of `std::istream` in the default
("C") locale, on the characters still unread.  A failed extraction leaves the
stream in a failed state, in which every later extraction of the same chain is
a no-op; the error value carries the characters left unread at that point. -/

/-- The whitespace characters skipped by a formatted extraction. -/
def isspace (c : Char) : Bool :=
  c = ' ' ∨ c = '\t' ∨ c = '\n' ∨ c = Char.ofNat 11 ∨ c = Char.ofNat 12 ∨ c = '\r'

/-- Decimal digits. -/
def isdigit (c : Char) : Bool := 48 ≤ c.toNat ∧ c.toNat ≤ 57

/-- Skip leading whitespace. -/
def skipws : List Char → List Char
  | [] => []
  | c :: cs => if isspace c then skipws cs else c :: cs

/-- Value of a run of decimal digits, most significant first. -/
def digitsValue (ds : List Char) : Nat :=
  ds.foldl (fun acc d => 10 * acc + (d.toNat - 48)) 0

/-- The extraction `cin >> n` for an `int n`: skip whitespace, take an optional sign and
the longest run of digits; fail when there is no digit or the value does not
fit an `int`. -/
def extractInt (s : List Char) : Except (List Char) (Int × List Char) :=
  let s1 := skipws s
  let neg : Bool := s1.head? = some '-'
  let s2 := if s1.head? = some '-' ∨ s1.head? = some '+' then s1.tail else s1
  let ds := s2.takeWhile isdigit
  let rest := s2.dropWhile isdigit
  if ds.isEmpty then .error rest
  else
    let v : Int := if neg then -(digitsValue ds : Int) else (digitsValue ds : Int)
    if v < INT_MIN ∨ INT_MAX < v then .error rest else .ok (v, rest)

/-- The extraction `cin >> c` for a `char c`: skip whitespace and take one character;
fail at end of input. -/
def extractChar (s : List Char) : Except (List Char) (Char × List Char) :=
  match skipws s with
  | [] => .error []
  | c :: cs => .ok (c, cs)

/-- The four fields of one request. -/
structure Request where
  Z : Int
  ni : Int
  nj : Int
  unit : Char
  deriving DecidableEq, Repr

/-- The chain `cin >> Z >> ni >> nj >> unit`. -/
def readRequest (s : List Char) : Except (List Char) (Request × List Char) :=
  match extractInt s with
  | .error left => .error left
  | .ok (Z, s1) =>
    match extractInt s1 with
    | .error left => .error left
    | .ok (ni, s2) =>
      match extractInt s2 with
      | .error left => .error left
      | .ok (nj, s3) =>
        match extractChar s3 with
        | .error left => .error left
        | .ok (unit, s4) => .ok (⟨Z, ni, nj, unit⟩, s4)

/-- The function `std::tolower` on an `unsigned char` in the "C" locale. -/
def tolower (c : Char) : Char :=
  if 65 ≤ c.toNat ∧ c.toNat ≤ 90 then Char.ofNat (c.toNat + 32) else c

/-! ## The program -/

/-- The function `clearBadInput`: `cin.clear()` then `cin.ignore(max, '\n')`, which
discards the unread characters up to and including the next newline. -/
def clearBadInput : List Char → List Char
  | [] => []
  | c :: cs => if c = '\n' then cs else clearBadInput cs

/-- The function `energyEv`: `13.6 * Z2 * term` with `Z2 = double(Z) * double(Z)` and
`term = 1.0 / (double(nj) * nj) - 1.0 / (double(ni) * ni)`.  A zero
denominator gives no finite value. -/
def energyEv (Z ni nj : Int) : Option ℚ :=
  let Z2 : ℚ := (Z : ℚ) * (Z : ℚ)
  let dj : ℚ := (nj : ℚ) * (nj : ℚ)
  let di : ℚ := (ni : ℚ) * (ni : ℚ)
  if dj = 0 ∨ di = 0 then none
  else
    let term : ℚ := (1 / dj) - (1 / di)
    some (13.6 * Z2 * term)

/-- What one pass through the body of `while (true)` does: the operands written
to `cout`, and how the pass ends: `some rest` when the loop goes round again
(by `continue` or by falling off the end of the body) with `rest` unread,
`none` when it leaves by `break`. -/
structure Step where
  out : List Out
  next : Option (List Char)
  deriving DecidableEq, Repr

/-- The body of the loop after the four fields were read (from the case fold of
`unit` to the end of the body); `rest` is the input left unread. -/
def processRequest (Z ni nj : Int) (unit0 : Char) (rest : List Char) : Step :=
  let unit := tolower unit0
  if Z ≤ 0 then
    ⟨[.str atomicNumberMsg, .endl], some rest⟩
  else if ni ≤ 0 ∨ nj ≤ 0 then
    ⟨[.str quantumNumberMsg, .endl], some rest⟩
  else if ni ≤ nj then
    ⟨[.str orderingMsg, .endl], some rest⟩
  else if unit ≠ 'j' ∧ unit ≠ 'e' then
    ⟨[.str unitMsg, .endl], some rest⟩
  else
    let E_eV := energyEv Z ni nj
    let E_J := E_eV.map (fun x => x * EV_TO_J)
    let printed : List Out :=
      if unit = 'e' then [.str resultMsg, .num E_eV, .str " eV", .endl]
      else [.str resultMsg, .num E_J, .str " J", .endl]
    let again0 : Char := 'n'
    let r : Char × List Char :=
      match extractChar rest with
      | .ok (c, rest1) => (c, rest1)
      | .error left => (again0, left)
    let again := tolower r.1
    if again ≠ 'y' then ⟨printed ++ [.str repeatMsg], none⟩
    else ⟨printed ++ [.str repeatMsg], some r.2⟩

/-- One pass through the body of `while (true)`. -/
def loopBody (inp : List Char) : Step :=
  match readRequest inp with
  | .error left =>
    ⟨[.str promptMsg, .str formatMsg, .endl], some (clearBadInput left)⟩
  | .ok (req, rest) =>
    let s := processRequest req.Z req.ni req.nj req.unit rest
    ⟨.str promptMsg :: s.out, s.next⟩

/-- The loop `while (true)`, run for at most `fuel` passes: the output, and the exit
code once the loop was left (`none` while it is still running). -/
def mainLoop : Nat → List Char → List Out × Option Int
  | 0, _ => ([], none)
  | fuel + 1, inp =>
    let s := loopBody inp
    match s.next with
    | none => (s.out, some 0)
    | some rest =>
      let r := mainLoop fuel rest
      (s.out ++ r.1, r.2)

/-- The function `main`: the title line, then the loop. -/
def main (fuel : Nat) (inp : List Char) : List Out × Option Int :=
  let r := mainLoop fuel inp
  (.str titleMsg :: .endl :: r.1, r.2)

/-! ## Auxiliary facts -/

/-- Case folding and the letter `j`. -/
theorem tolower_eq_j (c : Char) : tolower c = 'j' ↔ c = 'j' ∨ c = 'J' := by
  unfold tolower
  have hc : c = Char.ofNat c.toNat := (Char.ofNat_toNat c).symm
  constructor
  · intro h
    split_ifs at h with hr
    · obtain ⟨h1, h2⟩ := hr
      generalize c.toNat = n at *
      subst hc
      interval_cases n <;> revert h <;> decide
    · exact Or.inl h
  · rintro (h | h) <;> subst h <;> decide

/-- Case folding and the letter `e`. -/
theorem tolower_eq_e (c : Char) : tolower c = 'e' ↔ c = 'e' ∨ c = 'E' := by
  unfold tolower
  have hc : c = Char.ofNat c.toNat := (Char.ofNat_toNat c).symm
  constructor
  · intro h
    split_ifs at h with hr
    · obtain ⟨h1, h2⟩ := hr
      generalize c.toNat = n at *
      subst hc
      interval_cases n <;> revert h <;> decide
    · exact Or.inl h
  · rintro (h | h) <;> subst h <;> decide

/-- The denominators of `energyEv` are nonzero exactly when both levels are. -/
theorem energyEv_defined (Z ni nj : Int) (hi : ni ≠ 0) (hj : nj ≠ 0) :
    energyEv Z ni nj
      = some (13.6 * ((Z : ℚ) * (Z : ℚ))
          * (1 / ((nj : ℚ) * (nj : ℚ)) - 1 / ((ni : ℚ) * (ni : ℚ)))) := by
  have hi1 : (ni : ℚ) ≠ 0 := Int.cast_ne_zero.mpr hi
  have hj1 : (nj : ℚ) ≠ 0 := Int.cast_ne_zero.mpr hj
  simp [energyEv, hi1, hj1]

/-- Case folding is idempotent. -/
theorem tolower_tolower (c : Char) : tolower (tolower c) = tolower c := by
  by_cases hr : 65 ≤ c.toNat ∧ c.toNat ≤ 90
  · have hc : c = Char.ofNat c.toNat := (Char.ofNat_toNat c).symm
    obtain ⟨h1, h2⟩ := hr
    generalize c.toNat = n at *
    subst hc
    interval_cases n <;> decide
  · have h1 : tolower c = c := by simp only [tolower, if_neg hr]
    rw [h1, h1]

/-- A pass whose four fields were read is the prompt followed by `processRequest`. -/
theorem loopBody_of_parsed (inp rest : List Char) (req : Request)
    (h : readRequest inp = .ok (req, rest)) :
    loopBody inp
      = ⟨.str promptMsg :: (processRequest req.Z req.ni req.nj req.unit rest).out,
          (processRequest req.Z req.ni req.nj req.unit rest).next⟩ := by
  simp only [loopBody, h]

/-- First guard: `Z <= 0`. -/
theorem processRequest_atomic (Z ni nj : Int) (u : Char) (rest : List Char) (hZ : Z ≤ 0) :
    processRequest Z ni nj u rest = ⟨[.str atomicNumberMsg, .endl], some rest⟩ := by
  simp only [processRequest, if_pos hZ]

/-- Second guard: `ni <= 0 || nj <= 0`, reached when `Z > 0`. -/
theorem processRequest_quantum (Z ni nj : Int) (u : Char) (rest : List Char)
    (hZ : 0 < Z) (hn : ni ≤ 0 ∨ nj ≤ 0) :
    processRequest Z ni nj u rest = ⟨[.str quantumNumberMsg, .endl], some rest⟩ := by
  simp only [processRequest, if_neg (not_le.mpr hZ), if_pos hn]

/-- Third guard: `ni <= nj`, reached when `Z`, `ni` and `nj` are positive. -/
theorem processRequest_ordering (Z ni nj : Int) (u : Char) (rest : List Char)
    (hZ : 0 < Z) (hi : 0 < ni) (hj : 0 < nj) (ho : ni ≤ nj) :
    processRequest Z ni nj u rest = ⟨[.str orderingMsg, .endl], some rest⟩ := by
  have hn : ¬ (ni ≤ 0 ∨ nj ≤ 0) := by omega
  simp only [processRequest, if_neg (not_le.mpr hZ), if_neg hn, if_pos ho]

/-- Fourth guard: the folded unit is neither `j` nor `e`. -/
theorem processRequest_unit (Z ni nj : Int) (u : Char) (rest : List Char)
    (hZ : 0 < Z) (hj : 0 < nj) (ho : nj < ni)
    (hu : tolower u ≠ 'j' ∧ tolower u ≠ 'e') :
    processRequest Z ni nj u rest = ⟨[.str unitMsg, .endl], some rest⟩ := by
  have hn : ¬ (ni ≤ 0 ∨ nj ≤ 0) := by omega
  simp only [processRequest, if_neg (not_le.mpr hZ), if_neg hn, if_neg (not_le.mpr ho),
    if_pos hu]

/-- Output of a request that passes the four guards. -/
theorem processRequest_accepted_out (Z ni nj : Int) (u : Char) (rest : List Char)
    (hZ : 0 < Z) (hj : 0 < nj) (ho : nj < ni)
    (hu : tolower u = 'j' ∨ tolower u = 'e') :
    (processRequest Z ni nj u rest).out
      = (if tolower u = 'e' then
            [Out.str resultMsg, .num (energyEv Z ni nj), .str " eV", .endl]
          else
            [Out.str resultMsg, .num ((energyEv Z ni nj).map (fun x => x * EV_TO_J)),
              .str " J", .endl])
        ++ [.str repeatMsg] := by
  have hn : ¬ (ni ≤ 0 ∨ nj ≤ 0) := by omega
  have hu1 : ¬ (tolower u ≠ 'j' ∧ tolower u ≠ 'e') := by tauto
  simp only [processRequest, if_neg (not_le.mpr hZ), if_neg hn, if_neg (not_le.mpr ho),
    if_neg hu1]
  split_ifs <;> rfl

/-! ## The energy formula -/

/-- C1: for all integers `Z`, `ni`, `nj` with `ni ≠ 0` and `nj ≠ 0`, `energyEv Z ni nj` is
the rational number `13.6 * Z^2 * (1/nj^2 - 1/ni^2)`: squares and quotients are
taken in the rationals, nothing is truncated or wrapped. -/
theorem energyEv_formula (Z ni nj : Int) (hi : ni ≠ 0) (hj : nj ≠ 0) :
    energyEv Z ni nj
      = some (13.6 * (Z : ℚ) ^ 2 * (1 / (nj : ℚ) ^ 2 - 1 / (ni : ℚ) ^ 2)) := by
  rw [energyEv_defined Z ni nj hi hj, pow_two, pow_two, pow_two]

/-- C1 at `Z = 50000`, `ni = 3`, `nj = 2`: the square is `2500000000` and the bracket is
`1/4 - 1/9`, not an integer quotient. -/
theorem energyEv_formula_witness :
    (3 : Int) ≠ 0 ∧ (2 : Int) ≠ 0 ∧
      energyEv 50000 3 2 = some (13.6 * 2500000000 * (1 / 4 - 1 / 9)) := by
  refine ⟨by decide, by decide, ?_⟩
  have h := energyEv_formula 50000 3 2 (by decide) (by decide)
  rw [h]
  norm_num

/-- C2: for all integers `Z ≥ 1` and `ni > nj > 0`, `energyEv Z ni nj` is a finite value
strictly greater than `0`. -/
theorem energyEv_pos (Z ni nj : Int) (hZ : 1 ≤ Z) (hj : 0 < nj) (hij : nj < ni) :
    ∃ e : ℚ, energyEv Z ni nj = some e ∧ 0 < e := by
  have hi : 0 < ni := lt_trans hj hij
  refine ⟨_, energyEv_defined Z ni nj (ne_of_gt hi) (ne_of_gt hj), ?_⟩
  have hZq : (0 : ℚ) < (Z : ℚ) := by exact_mod_cast (lt_of_lt_of_le Int.zero_lt_one hZ)
  have hjq : (0 : ℚ) < (nj : ℚ) := by exact_mod_cast hj
  have hiq : (0 : ℚ) < (ni : ℚ) := by exact_mod_cast hi
  have hijq : (nj : ℚ) < (ni : ℚ) := by exact_mod_cast hij
  have hsq : (nj : ℚ) * (nj : ℚ) < (ni : ℚ) * (ni : ℚ) :=
    mul_lt_mul hijq (le_of_lt hijq) hjq (le_of_lt hiq)
  have hterm : 0 < 1 / ((nj : ℚ) * (nj : ℚ)) - 1 / ((ni : ℚ) * (ni : ℚ)) :=
    sub_pos.mpr (one_div_lt_one_div_of_lt (mul_pos hjq hjq) hsq)
  have hc : (0 : ℚ) < 13.6 := by norm_num
  exact mul_pos (mul_pos hc (mul_pos hZq hZq)) hterm

/-- C2 at `Z = 1`, `ni = 2`, `nj = 1`. -/
theorem energyEv_pos_witness :
    (1 : Int) ≤ 1 ∧ (0 : Int) < 1 ∧ (1 : Int) < 2 ∧
      ∃ e : ℚ, energyEv 1 2 1 = some e ∧ 0 < e :=
  ⟨by decide, by decide, by decide, energyEv_pos 1 2 1 (by decide) (by decide) (by decide)⟩

/-- C5: `energyEv 1 2 1` is `10.2`, which is `13.6 * 1 * (1/1 - 1/4)`. -/
theorem energyEv_one_two_one :
    energyEv 1 2 1 = some 10.2 ∧ (10.2 : ℚ) = 13.6 * 1 * (1 / 1 - 1 / 4) := by
  constructor
  · rw [energyEv_defined 1 2 1 (by decide) (by decide)]
    norm_num
  · norm_num

/-! ## Validation and output of one request -/

/-- C3: for a request whose four fields were read, the pass prints a result line
exactly when `Z ≥ 1`, `ni ≥ 1`, `nj ≥ 1`, `ni > nj` and the unit is one of `e`, `E`,
`j`, `J`; in every other case nothing of a result line is printed and the loop
goes round again with the input that followed the four fields. -/
theorem loopBody_result_iff (inp rest : List Char) (Z ni nj : Int) (unit : Char)
    (h : readRequest inp = .ok (⟨Z, ni, nj, unit⟩, rest)) :
    (Out.str resultMsg ∈ (loopBody inp).out ↔
        (1 ≤ Z ∧ 1 ≤ ni ∧ 1 ≤ nj ∧ nj < ni ∧
          (unit = 'e' ∨ unit = 'E' ∨ unit = 'j' ∨ unit = 'J'))) ∧
      (¬ (1 ≤ Z ∧ 1 ≤ ni ∧ 1 ≤ nj ∧ nj < ni ∧
          (unit = 'e' ∨ unit = 'E' ∨ unit = 'j' ∨ unit = 'J')) →
        Out.str resultMsg ∉ (loopBody inp).out ∧
        (∀ x, Out.num x ∉ (loopBody inp).out) ∧
        (loopBody inp).next = some rest) := by
  rw [loopBody_of_parsed inp rest _ h]
  simp only
  have hp : Out.str resultMsg ≠ Out.str promptMsg := by decide
  have hrej : ∀ m : String, m ≠ resultMsg →
      processRequest Z ni nj unit rest = ⟨[.str m, .endl], some rest⟩ →
      Out.str resultMsg ∉ Out.str promptMsg :: (processRequest Z ni nj unit rest).out ∧
      (∀ x, Out.num x ∉ Out.str promptMsg :: (processRequest Z ni nj unit rest).out) ∧
      (processRequest Z ni nj unit rest).next = some rest := by
    intro m hm hpr
    rw [hpr]
    refine ⟨?_, ?_, rfl⟩
    · simp only [List.mem_cons, List.mem_singleton, List.not_mem_nil, Out.str.injEq,
        or_false, reduceCtorEq, not_or]
      exact ⟨fun hh => hp (congrArg Out.str hh), fun hh => hm hh.symm⟩
    · intro x
      simp
  have hrejected : ¬ (1 ≤ Z ∧ 1 ≤ ni ∧ 1 ≤ nj ∧ nj < ni ∧
        (unit = 'e' ∨ unit = 'E' ∨ unit = 'j' ∨ unit = 'J')) →
      Out.str resultMsg ∉ Out.str promptMsg :: (processRequest Z ni nj unit rest).out ∧
      (∀ x, Out.num x ∉ Out.str promptMsg :: (processRequest Z ni nj unit rest).out) ∧
      (processRequest Z ni nj unit rest).next = some rest := by
    intro hnot
    by_cases hZ : Z ≤ 0
    · exact hrej _ (by decide) (processRequest_atomic Z ni nj unit rest hZ)
    by_cases hn : ni ≤ 0 ∨ nj ≤ 0
    · exact hrej _ (by decide) (processRequest_quantum Z ni nj unit rest (by omega) hn)
    by_cases ho : ni ≤ nj
    · exact hrej _ (by decide)
        (processRequest_ordering Z ni nj unit rest (by omega) (by omega) (by omega) ho)
    have hu : tolower unit ≠ 'j' ∧ tolower unit ≠ 'e' := by
      rw [Ne, Ne, tolower_eq_j, tolower_eq_e]
      constructor
      · intro hh
        exact hnot ⟨by omega, by omega, by omega, by omega, by tauto⟩
      · intro hh
        exact hnot ⟨by omega, by omega, by omega, by omega, by tauto⟩
    exact hrej _ (by decide)
      (processRequest_unit Z ni nj unit rest (by omega) (by omega) (by omega) hu)
  refine ⟨⟨?_, ?_⟩, hrejected⟩
  · intro hmem
    by_contra hnot
    exact (hrejected hnot).1 hmem
  · rintro ⟨hZ, hi, hj, ho, hu⟩
    have hu1 : tolower unit = 'j' ∨ tolower unit = 'e' := by
      rw [tolower_eq_j, tolower_eq_e]
      tauto
    rw [processRequest_accepted_out Z ni nj unit rest (by omega) (by omega) ho hu1]
    split_ifs <;> simp

/-- C3 on the inputs `1 2 1 E` (accepted) and `1 1 2 E` (rejected). -/
theorem loopBody_result_iff_witness :
    readRequest "1 2 1 E\nn\n".toList = .ok (⟨1, 2, 1, 'E'⟩, "\nn\n".toList) ∧
      Out.str resultMsg ∈ (loopBody "1 2 1 E\nn\n".toList).out ∧
      readRequest "1 1 2 E\nn\n".toList = .ok (⟨1, 1, 2, 'E'⟩, "\nn\n".toList) ∧
      Out.str resultMsg ∉ (loopBody "1 1 2 E\nn\n".toList).out ∧
      (loopBody "1 1 2 E\nn\n".toList).next = some "\nn\n".toList := by
  have h1 := loopBody_result_iff "1 2 1 E\nn\n".toList "\nn\n".toList 1 2 1 'E' rfl
  have h2 := loopBody_result_iff "1 1 2 E\nn\n".toList "\nn\n".toList 1 1 2 'E' rfl
  refine ⟨rfl, h1.1.mpr (by decide), rfl, ?_, ?_⟩
  · exact (h2.2 (by decide)).1
  · exact (h2.2 (by decide)).2.2

/-- C4: an accepted request whose folded unit is `j` prints the value
`energyEv Z ni nj * 1.602176634e-19` with the label `J`, one whose folded unit is `e`
prints `energyEv Z ni nj` with the label `eV`; the request `2 3 1 J` prints
`13.6 * 4 * (1 - 1/9) * 1.602176634e-19`. -/
theorem loopBody_printed_value :
    (∀ (inp rest : List Char) (Z ni nj : Int) (unit : Char),
        readRequest inp = .ok (⟨Z, ni, nj, unit⟩, rest) →
        1 ≤ Z → 1 ≤ ni → 1 ≤ nj → nj < ni →
        (tolower unit = 'j' →
          ∃ e : ℚ, energyEv Z ni nj = some e ∧
            (loopBody inp).out
              = [.str promptMsg, .str resultMsg, .num (some (e * 1.602176634e-19)),
                  .str " J", .endl, .str repeatMsg]) ∧
        (tolower unit = 'e' →
          ∃ e : ℚ, energyEv Z ni nj = some e ∧
            (loopBody inp).out
              = [.str promptMsg, .str resultMsg, .num (some e),
                  .str " eV", .endl, .str repeatMsg])) ∧
      (∀ inp rest : List Char, readRequest inp = .ok (⟨2, 3, 1, 'J'⟩, rest) →
        (loopBody inp).out
          = [.str promptMsg, .str resultMsg,
              .num (some (13.6 * 4 * (1 - 1 / 9) * 1.602176634e-19)),
              .str " J", .endl, .str repeatMsg]) := by
  have hgen : ∀ (inp rest : List Char) (Z ni nj : Int) (unit : Char),
      readRequest inp = .ok (⟨Z, ni, nj, unit⟩, rest) →
      1 ≤ Z → 1 ≤ ni → 1 ≤ nj → nj < ni →
      (tolower unit = 'j' →
        ∃ e : ℚ, energyEv Z ni nj = some e ∧
          (loopBody inp).out
            = [.str promptMsg, .str resultMsg, .num (some (e * 1.602176634e-19)),
                .str " J", .endl, .str repeatMsg]) ∧
      (tolower unit = 'e' →
        ∃ e : ℚ, energyEv Z ni nj = some e ∧
          (loopBody inp).out
            = [.str promptMsg, .str resultMsg, .num (some e),
                .str " eV", .endl, .str repeatMsg]) := by
    intro inp rest Z ni nj unit h hZ hi hj ho
    have he := energyEv_defined Z ni nj (by omega) (by omega)
    rw [loopBody_of_parsed inp rest _ h]
    simp only
    constructor
    · intro hu
      refine ⟨_, he, ?_⟩
      have hne : ¬ tolower unit = 'e' := by rw [hu]; decide
      rw [processRequest_accepted_out Z ni nj unit rest (by omega) (by omega) ho (Or.inl hu),
        if_neg hne, he]
      rfl
    · intro hu
      refine ⟨_, he, ?_⟩
      rw [processRequest_accepted_out Z ni nj unit rest (by omega) (by omega) ho (Or.inr hu),
        if_pos hu, he]
      rfl
  refine ⟨hgen, ?_⟩
  intro inp rest h
  obtain ⟨e, he, hout⟩ :=
    (hgen inp rest 2 3 1 'J' h (by decide) (by decide) (by decide) (by decide)).1 (by decide)
  rw [hout]
  rw [energyEv_defined 2 3 1 (by decide) (by decide)] at he
  have hval : e = 13.6 * 4 * (1 - 1 / 9) := by
    rw [← Option.some.inj he]
    norm_num
  rw [hval]

/-- C4 on the input `2 3 1 J`. -/
theorem loopBody_printed_value_witness :
    readRequest "2 3 1 J\nn\n".toList = .ok (⟨2, 3, 1, 'J'⟩, "\nn\n".toList) ∧
      (loopBody "2 3 1 J\nn\n".toList).out
        = [.str promptMsg, .str resultMsg,
            .num (some (13.6 * 4 * (1 - 1 / 9) * 1.602176634e-19)),
            .str " J", .endl, .str repeatMsg] :=
  ⟨rfl, loopBody_printed_value.2 "2 3 1 J\nn\n".toList "\nn\n".toList rfl⟩

/-- C6: a request with `Z ≤ 0`, whatever `ni`, `nj` and the unit are, prints the prompt
and the atomic-number message and nothing else, and the loop goes round again
on the input that followed the four fields: the next pass is a fresh pass of
the loop on that input. -/
theorem loopBody_atomic_number (inp rest : List Char) (Z ni nj : Int) (unit : Char)
    (h : readRequest inp = .ok (⟨Z, ni, nj, unit⟩, rest)) (hZ : Z ≤ 0) :
    loopBody inp
        = ⟨[.str promptMsg, .str "Error: Z must be a positive integer.", .endl],
            some rest⟩ ∧
      ∀ fuel : Nat,
        mainLoop (fuel + 1) inp
          = ([.str promptMsg, .str "Error: Z must be a positive integer.", .endl]
                ++ (mainLoop fuel rest).1,
              (mainLoop fuel rest).2) := by
  have hb : loopBody inp
      = ⟨[.str promptMsg, .str "Error: Z must be a positive integer.", .endl],
          some rest⟩ := by
    rw [loopBody_of_parsed inp rest _ h]
    simp only
    rw [processRequest_atomic Z ni nj unit rest hZ]
    rfl
  refine ⟨hb, fun fuel => ?_⟩
  simp only [mainLoop, hb]

/-- C6 on the input `0 0 0 x`. -/
theorem loopBody_atomic_number_witness :
    readRequest "0 0 0 x\n".toList = .ok (⟨0, 0, 0, 'x'⟩, "\n".toList) ∧
      (0 : Int) ≤ 0 ∧
      loopBody "0 0 0 x\n".toList
        = ⟨[.str promptMsg, .str "Error: Z must be a positive integer.", .endl],
            some "\n".toList⟩ :=
  ⟨rfl, by decide,
    (loopBody_atomic_number "0 0 0 x\n".toList "\n".toList 0 0 0 'x' rfl (by decide)).1⟩

/-- C7 as stated fails: the request `0 0 1 e` has `ni ≤ 0`, yet the pass prints the
atomic-number message and not the quantum-number message. -/
theorem loopBody_quantum_number_counterexample :
    readRequest "0 0 1 e\n".toList = .ok (⟨0, 0, 1, 'e'⟩, "\n".toList) ∧
      ((0 : Int) ≤ 0 ∨ (1 : Int) ≤ 0) ∧
      loopBody "0 0 1 e\n".toList
        = ⟨[.str promptMsg, .str atomicNumberMsg, .endl], some "\n".toList⟩ ∧
      Out.str "Error: ni and nj must be positive integers."
        ∉ (loopBody "0 0 1 e\n".toList).out :=
  ⟨rfl, by decide, rfl, by decide⟩

/-- C7, amended: a request with `Z ≥ 1` and `ni ≤ 0` or `nj ≤ 0` prints the prompt and the
quantum-number message and nothing else, and the loop goes round again on the
input that followed the four fields. -/
theorem loopBody_quantum_number (inp rest : List Char) (Z ni nj : Int) (unit : Char)
    (h : readRequest inp = .ok (⟨Z, ni, nj, unit⟩, rest))
    (hZ : 1 ≤ Z) (hn : ni ≤ 0 ∨ nj ≤ 0) :
    loopBody inp
      = ⟨[.str promptMsg, .str "Error: ni and nj must be positive integers.", .endl],
          some rest⟩ := by
  rw [loopBody_of_parsed inp rest _ h]
  simp only
  rw [processRequest_quantum Z ni nj unit rest (by omega) hn]
  rfl

/-- C7, amended, on the input `1 0 1 e`. -/
theorem loopBody_quantum_number_witness :
    readRequest "1 0 1 e\n".toList = .ok (⟨1, 0, 1, 'e'⟩, "\n".toList) ∧
      (1 : Int) ≤ 1 ∧ ((0 : Int) ≤ 0 ∨ (1 : Int) ≤ 0) ∧
      loopBody "1 0 1 e\n".toList
        = ⟨[.str promptMsg, .str "Error: ni and nj must be positive integers.", .endl],
            some "\n".toList⟩ :=
  ⟨rfl, by decide, by decide,
    loopBody_quantum_number "1 0 1 e\n".toList "\n".toList 1 0 1 'e' rfl (by decide)
      (by decide)⟩

/-- C8 as stated fails: the request `1 0 1 e` has `ni ≤ nj`, yet the pass prints the
quantum-number message and not the ordering message. -/
theorem loopBody_ordering_counterexample :
    readRequest "1 0 1 e\n".toList = .ok (⟨1, 0, 1, 'e'⟩, "\n".toList) ∧
      (0 : Int) ≤ 1 ∧
      loopBody "1 0 1 e\n".toList
        = ⟨[.str promptMsg, .str quantumNumberMsg, .endl], some "\n".toList⟩ ∧
      Out.str "Error: require ni > nj for this transition."
        ∉ (loopBody "1 0 1 e\n".toList).out :=
  ⟨rfl, by decide, rfl, by decide⟩

/-- C8, amended: a request with `Z ≥ 1`, `ni ≥ 1`, `nj ≥ 1` and `ni ≤ nj` (equality
included) prints the prompt and the ordering message and nothing else, and the
loop goes round again on the input that followed the four fields. -/
theorem loopBody_ordering (inp rest : List Char) (Z ni nj : Int) (unit : Char)
    (h : readRequest inp = .ok (⟨Z, ni, nj, unit⟩, rest))
    (hZ : 1 ≤ Z) (hi : 1 ≤ ni) (hj : 1 ≤ nj) (ho : ni ≤ nj) :
    loopBody inp
      = ⟨[.str promptMsg, .str "Error: require ni > nj for this transition.", .endl],
          some rest⟩ := by
  rw [loopBody_of_parsed inp rest _ h]
  simp only
  rw [processRequest_ordering Z ni nj unit rest (by omega) (by omega) (by omega) ho]
  rfl

/-- C8, amended, on the input `1 1 2 e` (`ni = 1`, `nj = 2`). -/
theorem loopBody_ordering_witness :
    readRequest "1 1 2 e\n".toList = .ok (⟨1, 1, 2, 'e'⟩, "\n".toList) ∧
      (1 : Int) ≤ 1 ∧ (1 : Int) ≤ 2 ∧
      loopBody "1 1 2 e\n".toList
        = ⟨[.str promptMsg, .str "Error: require ni > nj for this transition.", .endl],
            some "\n".toList⟩ :=
  ⟨rfl, by decide, by decide,
    loopBody_ordering "1 1 2 e\n".toList "\n".toList 1 1 2 'e' rfl (by decide) (by decide)
      (by decide) (by decide)⟩

/-- C9 as stated fails: the request `0 2 1 x` has a unit that is none of `e`, `E`, `j`,
`J`, yet the pass prints the atomic-number message and not the unit message. -/
theorem loopBody_unit_counterexample :
    readRequest "0 2 1 x\n".toList = .ok (⟨0, 2, 1, 'x'⟩, "\n".toList) ∧
      ('x' ≠ 'e' ∧ 'x' ≠ 'E' ∧ 'x' ≠ 'j' ∧ 'x' ≠ 'J') ∧
      loopBody "0 2 1 x\n".toList
        = ⟨[.str promptMsg, .str atomicNumberMsg, .endl], some "\n".toList⟩ ∧
      Out.str "Error: Units must be J/j (Joules) or E/e (electron-volts)."
        ∉ (loopBody "0 2 1 x\n".toList).out :=
  ⟨rfl, by decide, rfl, by decide⟩

/-- C9, amended: a request with `Z ≥ 1`, `nj ≥ 1` and `ni > nj` whose unit is none of `e`,
`E`, `j`, `J` prints the prompt and the unit message and nothing else, and the
loop goes round again on the input that followed the four fields. -/
theorem loopBody_unit (inp rest : List Char) (Z ni nj : Int) (unit : Char)
    (h : readRequest inp = .ok (⟨Z, ni, nj, unit⟩, rest))
    (hZ : 1 ≤ Z) (hj : 1 ≤ nj) (ho : nj < ni)
    (hu : unit ≠ 'e' ∧ unit ≠ 'E' ∧ unit ≠ 'j' ∧ unit ≠ 'J') :
    loopBody inp
      = ⟨[.str promptMsg,
            .str "Error: Units must be J/j (Joules) or E/e (electron-volts).", .endl],
          some rest⟩ := by
  have hu1 : tolower unit ≠ 'j' ∧ tolower unit ≠ 'e' := by
    rw [Ne, Ne, tolower_eq_j, tolower_eq_e]
    tauto
  rw [loopBody_of_parsed inp rest _ h]
  simp only
  rw [processRequest_unit Z ni nj unit rest (by omega) (by omega) ho hu1]
  rfl

/-- C9, amended, on the input `1 2 1 x`. -/
theorem loopBody_unit_witness :
    readRequest "1 2 1 x\n".toList = .ok (⟨1, 2, 1, 'x'⟩, "\n".toList) ∧
      (1 : Int) ≤ 1 ∧ (1 : Int) < 2 ∧
      loopBody "1 2 1 x\n".toList
        = ⟨[.str promptMsg,
              .str "Error: Units must be J/j (Joules) or E/e (electron-volts).", .endl],
            some "\n".toList⟩ :=
  ⟨rfl, by decide, by decide,
    loopBody_unit "1 2 1 x\n".toList "\n".toList 1 2 1 'x' rfl (by decide) (by decide)
      (by decide) (by decide)⟩

/-- C10: for all integers `Z`, `ni`, `nj` and every input left unread, what the body does
with a request depends on the unit only through its lowercase fold; so the
whole outcome (accepted or not, message, value, label, how the pass ends) is
the same for `J` and `j`, and the same for `E` and `e`. -/
theorem processRequest_unit_case (Z ni nj : Int) (rest : List Char) :
    (∀ u : Char, processRequest Z ni nj u rest = processRequest Z ni nj (tolower u) rest) ∧
      processRequest Z ni nj 'J' rest = processRequest Z ni nj 'j' rest ∧
      processRequest Z ni nj 'E' rest = processRequest Z ni nj 'e' rest := by
  have hfold : ∀ u : Char,
      processRequest Z ni nj u rest = processRequest Z ni nj (tolower u) rest := by
    intro u
    simp only [processRequest, tolower_tolower]
  exact ⟨hfold, hfold 'J', hfold 'E'⟩

/-! ## The repeat prompt and the loop -/

/-- Case folding and the letter `y`. -/
theorem tolower_eq_y (c : Char) : tolower c = 'y' ↔ c = 'y' ∨ c = 'Y' := by
  unfold tolower
  have hc : c = Char.ofNat c.toNat := (Char.ofNat_toNat c).symm
  constructor
  · intro h
    split_ifs at h with hr
    · obtain ⟨h1, h2⟩ := hr
      generalize c.toNat = n at *
      subst hc
      interval_cases n <;> revert h <;> decide
    · exact Or.inl h
  · rintro (h | h) <;> subst h <;> decide

/-- How the pass of a request that passes the four guards ends: it goes round again
exactly when a character is read at the repeat prompt and folds to `y`. -/
theorem processRequest_accepted_next (Z ni nj : Int) (u : Char) (rest : List Char)
    (hZ : 0 < Z) (hj : 0 < nj) (ho : nj < ni)
    (hu : tolower u = 'j' ∨ tolower u = 'e') :
    (processRequest Z ni nj u rest).next
      = match extractChar rest with
        | .ok (c, rest1) => if tolower c = 'y' then some rest1 else none
        | .error _ => none := by
  have hn : ¬ (ni ≤ 0 ∨ nj ≤ 0) := by omega
  have hu1 : ¬ (tolower u ≠ 'j' ∧ tolower u ≠ 'e') := by tauto
  simp only [processRequest, if_neg (not_le.mpr hZ), if_neg hn, if_neg (not_le.mpr ho),
    if_neg hu1]
  cases hx : extractChar rest with
  | error left =>
    have hny : tolower 'n' ≠ 'y' := by decide
    simp only [if_pos hny]
  | ok p =>
    obtain ⟨c, rest1⟩ := p
    by_cases hy : tolower c = 'y'
    · simp only [hy, ne_eq, not_true_eq_false, if_false, if_true]
    · simp only [hy, ne_eq, not_false_eq_true, if_true, if_false]

/-- A pass that leaves the loop by `break` ends the program with exit code `0`. -/
theorem mainLoop_of_break (fuel : Nat) (inp : List Char) (h : (loopBody inp).next = none) :
    mainLoop (fuel + 1) inp = ((loopBody inp).out, some 0) := by
  simp only [mainLoop, h]

/-- A pass that goes round again is followed by the loop on the input it left. -/
theorem mainLoop_of_continue (fuel : Nat) (inp rest : List Char)
    (h : (loopBody inp).next = some rest) :
    mainLoop (fuel + 1) inp
      = ((loopBody inp).out ++ (mainLoop fuel rest).1, (mainLoop fuel rest).2) := by
  simp only [mainLoop, h]

/-- C11: after a result is printed the loop returns to the prompt if and only if a
character is read at the repeat prompt and it is `y` or `Y`; for every other
character, and when nothing can be read (the answer keeps its default `n`), the
pass leaves the loop and the program ends with exit code `0`. -/
theorem loopBody_repeat (inp rest : List Char) (Z ni nj : Int) (unit : Char)
    (h : readRequest inp = .ok (⟨Z, ni, nj, unit⟩, rest))
    (hZ : 1 ≤ Z) (hj : 1 ≤ nj) (ho : nj < ni)
    (hu : unit = 'e' ∨ unit = 'E' ∨ unit = 'j' ∨ unit = 'J') :
    (∀ (c : Char) (rest1 : List Char), extractChar rest = .ok (c, rest1) →
        ((loopBody inp).next = some rest1 ↔ (c = 'y' ∨ c = 'Y')) ∧
        (¬ (c = 'y' ∨ c = 'Y') →
          (loopBody inp).next = none ∧
          ∀ fuel : Nat, (mainLoop (fuel + 1) inp).2 = some 0 ∧
            (main (fuel + 1) inp).2 = some 0)) ∧
      (∀ left : List Char, extractChar rest = .error left →
        (loopBody inp).next = none ∧
        ∀ fuel : Nat, (mainLoop (fuel + 1) inp).2 = some 0 ∧
          (main (fuel + 1) inp).2 = some 0) := by
  have hu1 : tolower unit = 'j' ∨ tolower unit = 'e' := by
    rw [tolower_eq_j, tolower_eq_e]
    tauto
  have hnext : (loopBody inp).next
      = match extractChar rest with
        | .ok (c, rest1) => if tolower c = 'y' then some rest1 else none
        | .error _ => none := by
    rw [loopBody_of_parsed inp rest _ h]
    exact processRequest_accepted_next Z ni nj unit rest (by omega) (by omega) ho hu1
  have hexit : (loopBody inp).next = none →
      ∀ fuel : Nat, (mainLoop (fuel + 1) inp).2 = some 0 ∧
        (main (fuel + 1) inp).2 = some 0 := by
    intro hb fuel
    have hm := mainLoop_of_break fuel inp hb
    exact ⟨by rw [hm], by simp only [main, hm]⟩
  constructor
  · intro c rest1 hc
    rw [hc] at hnext
    simp only at hnext
    by_cases hy : c = 'y' ∨ c = 'Y'
    · have hy1 : tolower c = 'y' := (tolower_eq_y c).mpr hy
      rw [if_pos hy1] at hnext
      exact ⟨⟨fun _ => hy, fun _ => hnext⟩, fun hnot => absurd hy hnot⟩
    · have hy1 : ¬ tolower c = 'y' := fun hh => hy ((tolower_eq_y c).mp hh)
      rw [if_neg hy1] at hnext
      refine ⟨⟨fun hs => ?_, fun hh => absurd hh hy⟩, fun _ => ⟨hnext, hexit hnext⟩⟩
      rw [hnext] at hs
      exact absurd hs (by simp)
  · intro left hl
    rw [hl] at hnext
    simp only at hnext
    exact ⟨hnext, hexit hnext⟩

/-- C11 on the inputs `1 2 1 E` followed by `Y`, by `n`, and by nothing. -/
theorem loopBody_repeat_witness :
    readRequest "1 2 1 E\nY\n".toList = .ok (⟨1, 2, 1, 'E'⟩, "\nY\n".toList) ∧
      extractChar "\nY\n".toList = .ok ('Y', "\n".toList) ∧
      (loopBody "1 2 1 E\nY\n".toList).next = some "\n".toList ∧
      readRequest "1 2 1 E\nn\n".toList = .ok (⟨1, 2, 1, 'E'⟩, "\nn\n".toList) ∧
      extractChar "\nn\n".toList = .ok ('n', "\n".toList) ∧
      (main 1 "1 2 1 E\nn\n".toList).2 = some 0 ∧
      readRequest "1 2 1 E".toList = .ok (⟨1, 2, 1, 'E'⟩, []) ∧
      extractChar [] = .error [] ∧
      (main 1 "1 2 1 E".toList).2 = some 0 := by
  have hY := loopBody_repeat "1 2 1 E\nY\n".toList "\nY\n".toList 1 2 1 'E' rfl
    (by decide) (by decide) (by decide) (by decide)
  have hn := loopBody_repeat "1 2 1 E\nn\n".toList "\nn\n".toList 1 2 1 'E' rfl
    (by decide) (by decide) (by decide) (by decide)
  have h0 := loopBody_repeat "1 2 1 E".toList [] 1 2 1 'E' rfl
    (by decide) (by decide) (by decide) (by decide)
  refine ⟨rfl, rfl, ?_, rfl, rfl, ?_, rfl, rfl, ?_⟩
  · exact ((hY.1 'Y' "\n".toList rfl).1).mpr (by decide)
  · exact (((hn.1 'n' "\n".toList rfl).2 (by decide)).2 0).2
  · exact ((h0.2 [] rfl).2 0).2

/-- C12, the code at end of input: the read at the four-field prompt fails, the pass
prints the format message and goes round again with nothing to read, so no
number of passes ends the loop: the exit code is never produced and the output
keeps growing by the prompt and the format message. -/
theorem mainLoop_end_of_input :
    loopBody [] = ⟨[.str promptMsg, .str formatMsg, .endl], some []⟩ ∧
      ∀ fuel : Nat,
        (mainLoop fuel []).2 = none ∧ (main fuel []).2 = none ∧
        (mainLoop fuel []).1.length = 3 * fuel := by
  have hb : loopBody [] = ⟨[.str promptMsg, .str formatMsg, .endl], some []⟩ := rfl
  refine ⟨hb, ?_⟩
  have hloop : ∀ fuel : Nat,
      (mainLoop fuel []).2 = none ∧ (mainLoop fuel []).1.length = 3 * fuel := by
    intro fuel
    induction fuel with
    | zero => exact ⟨rfl, rfl⟩
    | succ n ih =>
      have hs : mainLoop (n + 1) [] = _ := mainLoop_of_continue n [] [] (by rw [hb])
      rw [hs, hb]
      refine ⟨ih.1, ?_⟩
      simp only [List.length_append, List.length_cons, List.length_nil, ih.2]
      omega
  intro fuel
  exact ⟨(hloop fuel).1, by simp only [main, (hloop fuel).1], (hloop fuel).2⟩

/-- C15: on the input `1 2 1 E` followed by `n`, with any fuel of at least one pass, the
program prints the title, the prompt, one result line with the value `10.2` and
the label `eV`, the repeat prompt and nothing else (no error message), and ends
with exit code `0`. -/
theorem main_scenario (fuel : Nat) :
    main (fuel + 1) "1 2 1 E\nn\n".toList
      = ([.str titleMsg, .endl, .str promptMsg,
            .str "Energy of transition: ", .num (some 10.2), .str " eV", .endl,
            .str repeatMsg],
          some 0) := by
  have hparse : readRequest "1 2 1 E\nn\n".toList
      = .ok (⟨1, 2, 1, 'E'⟩, "\nn\n".toList) := rfl
  have hbody := loopBody_of_parsed _ _ _ hparse
  have hout := processRequest_accepted_out 1 2 1 'E' "\nn\n".toList (by decide) (by decide)
    (by decide) (by decide)
  have hnext := processRequest_accepted_next 1 2 1 'E' "\nn\n".toList (by decide)
    (by decide) (by decide) (by decide)
  have hE : tolower 'E' = 'e' := by decide
  have hx : extractChar "\nn\n".toList = .ok ('n', "\n".toList) := rfl
  have hny : ¬ tolower 'n' = 'y' := by decide
  have hval : energyEv 1 2 1 = some 10.2 := by
    rw [energyEv_defined 1 2 1 (by decide) (by decide)]
    norm_num
  rw [if_pos hE, hval] at hout
  rw [hx] at hnext
  simp only [if_neg hny] at hnext
  simp only at hbody
  rw [hout, hnext] at hbody
  have hm := mainLoop_of_break fuel "1 2 1 E\nn\n".toList (by rw [hbody])
  simp only [main, hm, hbody]
  rfl

/-- C18: for every integer `Z` and all levels `a > b > c ≥ 1`, the three energies are finite
and `energyEv Z a c = energyEv Z a b + energyEv Z b c` over exact arithmetic. -/
theorem energyEv_cascade (Z a b c : Int) (hc : 1 ≤ c) (hbc : c < b) (hab : b < a) :
    ∃ eac eab ebc : ℚ,
      energyEv Z a c = some eac ∧ energyEv Z a b = some eab ∧
        energyEv Z b c = some ebc ∧ eac = eab + ebc := by
  refine ⟨_, _, _, energyEv_defined Z a c (by omega) (by omega),
    energyEv_defined Z a b (by omega) (by omega),
    energyEv_defined Z b c (by omega) (by omega), ?_⟩
  ring

/-- C18 at `Z = 2`, `a = 3`, `b = 2`, `c = 1`. -/
theorem energyEv_cascade_witness :
    (1 : Int) ≤ 1 ∧ (1 : Int) < 2 ∧ (2 : Int) < 3 ∧
      ∃ eac eab ebc : ℚ,
        energyEv 2 3 1 = some eac ∧ energyEv 2 3 2 = some eab ∧
          energyEv 2 2 1 = some ebc ∧ eac = eab + ebc :=
  ⟨by decide, by decide, by decide,
    energyEv_cascade 2 3 2 1 (by decide) (by decide) (by decide)⟩

/-! ## The order of the checks and the calls of `energyEv` -/

/-- The two ways the body can treat a request: one of the four guards fires, the
first one in program order whose condition holds, and the pass prints that
message alone and goes round again; or all four pass. -/
theorem processRequest_rejected_or_accepted (Z ni nj : Int) (u : Char) (rest : List Char) :
    (∃ m : String,
        processRequest Z ni nj u rest = ⟨[.str m, .endl], some rest⟩ ∧
        ((Z ≤ 0 ∧ m = atomicNumberMsg) ∨
          (0 < Z ∧ (ni ≤ 0 ∨ nj ≤ 0) ∧ m = quantumNumberMsg) ∨
          (0 < Z ∧ 0 < ni ∧ 0 < nj ∧ ni ≤ nj ∧ m = orderingMsg) ∨
          (0 < Z ∧ 0 < nj ∧ nj < ni ∧ (tolower u ≠ 'j' ∧ tolower u ≠ 'e') ∧ m = unitMsg))) ∨
      (0 < Z ∧ 0 < nj ∧ nj < ni ∧ (tolower u = 'j' ∨ tolower u = 'e')) := by
  by_cases hZ : Z ≤ 0
  · exact Or.inl ⟨_, processRequest_atomic Z ni nj u rest hZ, Or.inl ⟨hZ, rfl⟩⟩
  have hZ1 : 0 < Z := by omega
  by_cases hn : ni ≤ 0 ∨ nj ≤ 0
  · exact Or.inl ⟨_, processRequest_quantum Z ni nj u rest hZ1 hn,
      Or.inr (Or.inl ⟨hZ1, hn, rfl⟩)⟩
  have hi1 : 0 < ni := by omega
  have hj1 : 0 < nj := by omega
  by_cases ho : ni ≤ nj
  · exact Or.inl ⟨_, processRequest_ordering Z ni nj u rest hZ1 hi1 hj1 ho,
      Or.inr (Or.inr (Or.inl ⟨hZ1, hi1, hj1, ho, rfl⟩))⟩
  have ho1 : nj < ni := by omega
  by_cases hu : tolower u ≠ 'j' ∧ tolower u ≠ 'e'
  · exact Or.inl ⟨_, processRequest_unit Z ni nj u rest hZ1 hj1 ho1 hu,
      Or.inr (Or.inr (Or.inr ⟨hZ1, hj1, ho1, hu, rfl⟩))⟩
  · exact Or.inr ⟨hZ1, hj1, ho1, by tauto⟩

/-- A pass prints a number only for a request that passed the four guards, and the
number is then a finite value. -/
theorem loopBody_num (inp : List Char) (x : Option ℚ) (hx : Out.num x ∈ (loopBody inp).out) :
    x ≠ none ∧
      ∃ (req : Request) (rest : List Char), readRequest inp = .ok (req, rest) ∧
        0 < req.Z ∧ 0 < req.nj ∧ req.nj < req.ni := by
  cases hr : readRequest inp with
  | error left =>
    simp [loopBody, hr] at hx
  | ok p =>
    obtain ⟨req, rest⟩ := p
    rw [loopBody_of_parsed inp rest req hr] at hx
    simp only at hx
    rcases processRequest_rejected_or_accepted req.Z req.ni req.nj req.unit rest with
      ⟨m, hm, _⟩ | ⟨hZ, hj, ho, hu⟩
    · rw [hm] at hx
      simp at hx
    · refine ⟨?_, req, rest, rfl, hZ, hj, ho⟩
      rw [processRequest_accepted_out req.Z req.ni req.nj req.unit rest hZ hj ho hu,
        energyEv_defined req.Z req.ni req.nj (by omega) (by omega)] at hx
      split_ifs at hx <;> simp at hx <;> rw [hx] <;> simp

/-- C16: a request that was read and fails validation prints exactly one error
message between the prompt and the end of the pass, and it is the message of
the first failing check in the order atomic number, quantum numbers, ordering,
unit; the loop then goes round again. -/
theorem loopBody_first_failing_check (inp rest : List Char) (Z ni nj : Int) (unit : Char)
    (h : readRequest inp = .ok (⟨Z, ni, nj, unit⟩, rest))
    (hfail : ¬ (1 ≤ Z ∧ 1 ≤ ni ∧ 1 ≤ nj ∧ nj < ni ∧
        (unit = 'e' ∨ unit = 'E' ∨ unit = 'j' ∨ unit = 'J'))) :
    ∃ m : String,
      loopBody inp = ⟨[.str promptMsg, .str m, .endl], some rest⟩ ∧
      (Z ≤ 0 → m = "Error: Z must be a positive integer.") ∧
      (1 ≤ Z → (ni ≤ 0 ∨ nj ≤ 0) → m = "Error: ni and nj must be positive integers.") ∧
      (1 ≤ Z → 1 ≤ ni → 1 ≤ nj → ni ≤ nj →
        m = "Error: require ni > nj for this transition.") ∧
      (1 ≤ Z → 1 ≤ ni → 1 ≤ nj → nj < ni →
        m = "Error: Units must be J/j (Joules) or E/e (electron-volts).") := by
  rw [loopBody_of_parsed inp rest _ h]
  simp only
  rcases processRequest_rejected_or_accepted Z ni nj unit rest with
    ⟨m, hm, hcase⟩ | ⟨hZ, hj, ho, hu⟩
  · refine ⟨m, by rw [hm], ?_, ?_, ?_, ?_⟩
    · intro hZ
      rcases hcase with ⟨_, rfl⟩ | ⟨h1, _⟩ | ⟨h1, _⟩ | ⟨h1, _⟩
      · rfl
      all_goals omega
    · intro hZ hn
      rcases hcase with ⟨h1, _⟩ | ⟨_, _, rfl⟩ | ⟨_, h1, h2, _⟩ | ⟨_, h1, h2, _⟩
      · omega
      · rfl
      all_goals omega
    · intro hZ hi hj ho
      rcases hcase with ⟨h1, _⟩ | ⟨_, h1, _⟩ | ⟨_, _, _, _, rfl⟩ | ⟨_, _, h1, _⟩
      · omega
      · omega
      · rfl
      · omega
    · intro hZ hi hj ho
      rcases hcase with ⟨h1, _⟩ | ⟨_, h1, _⟩ | ⟨_, _, _, h1, _⟩ | ⟨_, _, _, _, rfl⟩
      · omega
      · omega
      · omega
      · rfl
  · exfalso
    apply hfail
    rw [tolower_eq_j, tolower_eq_e] at hu
    exact ⟨by omega, by omega, by omega, ho, by tauto⟩

/-- C16 on the requests `1 0 1 e` (the quantum-number message, not the ordering message)
and `0 2 1 x` (only the atomic-number message). -/
theorem loopBody_first_failing_check_witness :
    (readRequest "1 0 1 e\n".toList = .ok (⟨1, 0, 1, 'e'⟩, "\n".toList) ∧
        loopBody "1 0 1 e\n".toList
          = ⟨[.str promptMsg, .str "Error: ni and nj must be positive integers.", .endl],
              some "\n".toList⟩) ∧
      (readRequest "0 2 1 x\n".toList = .ok (⟨0, 2, 1, 'x'⟩, "\n".toList) ∧
        loopBody "0 2 1 x\n".toList
          = ⟨[.str promptMsg, .str "Error: Z must be a positive integer.", .endl],
              some "\n".toList⟩) := by
  obtain ⟨m1, hb1, _, hq, _, _⟩ :=
    loopBody_first_failing_check "1 0 1 e\n".toList "\n".toList 1 0 1 'e' rfl (by decide)
  obtain ⟨m2, hb2, ha, _, _, _⟩ :=
    loopBody_first_failing_check "0 2 1 x\n".toList "\n".toList 0 2 1 'x' rfl (by decide)
  rw [hq (by decide) (by decide)] at hb1
  rw [ha (by decide)] at hb2
  exact ⟨⟨rfl, hb1⟩, ⟨rfl, hb2⟩⟩

/-- C17: the value of `energyEv` is used only for a printed number, and a pass prints a
number only for a request with `Z ≥ 1`, `nj ≥ 1` and `ni ≥ 2`; neither denominator
is then zero and the call returns a finite value.  So no run of `main`, on any
input and with any fuel, prints the result of a division by zero. -/
theorem energyEv_calls_safe :
    (∀ (inp rest : List Char) (Z ni nj : Int) (unit : Char),
        readRequest inp = .ok (⟨Z, ni, nj, unit⟩, rest) →
        (∃ x, Out.num x ∈ (loopBody inp).out) →
        1 ≤ Z ∧ 1 ≤ nj ∧ 2 ≤ ni ∧
          (nj : ℚ) * (nj : ℚ) ≠ 0 ∧ (ni : ℚ) * (ni : ℚ) ≠ 0 ∧
          energyEv Z ni nj ≠ none) ∧
      (∀ (fuel : Nat) (inp : List Char), Out.num none ∉ (main fuel inp).1) := by
  constructor
  · rintro inp rest Z ni nj unit h ⟨x, hx⟩
    obtain ⟨_, req, rest1, hr, hZ, hj, ho⟩ := loopBody_num inp x hx
    rw [h] at hr
    have hreq : (⟨Z, ni, nj, unit⟩ : Request) = req := (Prod.mk.inj (Except.ok.inj hr)).1
    subst hreq
    simp only at hZ hj ho
    have hjq : (nj : ℚ) ≠ 0 := Int.cast_ne_zero.mpr (by omega)
    have hiq : (ni : ℚ) ≠ 0 := Int.cast_ne_zero.mpr (by omega)
    refine ⟨by omega, by omega, by omega, mul_ne_zero hjq hjq, mul_ne_zero hiq hiq, ?_⟩
    rw [energyEv_defined Z ni nj (by omega) (by omega)]
    simp
  · have hloop : ∀ (fuel : Nat) (inp : List Char), Out.num none ∉ (mainLoop fuel inp).1 := by
      intro fuel
      induction fuel with
      | zero =>
        intro inp
        simp [mainLoop]
      | succ n ih =>
        intro inp hmem
        cases hn : (loopBody inp).next with
        | none =>
          rw [mainLoop_of_break n inp hn] at hmem
          exact (loopBody_num inp none hmem).1 rfl
        | some rest =>
          rw [mainLoop_of_continue n inp rest hn] at hmem
          rcases List.mem_append.mp hmem with hm | hm
          · exact (loopBody_num inp none hm).1 rfl
          · exact ih rest hm
    intro fuel inp hmem
    simp only [main, List.mem_cons, reduceCtorEq, false_or] at hmem
    exact hloop fuel inp hmem

/-- C17 on the input `1 2 1 E`. -/
theorem energyEv_calls_safe_witness :
    readRequest "1 2 1 E\nn\n".toList = .ok (⟨1, 2, 1, 'E'⟩, "\nn\n".toList) ∧
      energyEv 1 2 1 ≠ none := by
  have hout : Out.num (energyEv 1 2 1) ∈ (loopBody "1 2 1 E\nn\n".toList).out := by
    rw [loopBody_of_parsed "1 2 1 E\nn\n".toList "\nn\n".toList ⟨1, 2, 1, 'E'⟩ rfl]
    simp only
    rw [processRequest_accepted_out 1 2 1 'E' "\nn\n".toList (by decide) (by decide)
      (by decide) (by decide)]
    have hE : tolower 'E' = 'e' := by decide
    rw [if_pos hE]
    simp
  exact ⟨rfl,
    (energyEv_calls_safe.1 "1 2 1 E\nn\n".toList "\nn\n".toList 1 2 1 'E' rfl
      ⟨_, hout⟩).2.2.2.2.2⟩

/-! ## Failed reads -/

end Bohr
